import Mathlib

/-!
Verification model of `django_elasticsearch_dsl/management/commands/es_reindex.py`.

The command orchestrates zero-downtime reindexing: it resolves the models to
reindex, publishes index templates, populates fresh run-scoped indexes, and
then swaps a wildcard alias plus per-index fixed aliases over to the new run,
optionally deleting the superseded indexes.

The embedding below translates the command's pure decision logic directly
from the Python source.  The Elasticsearch cluster — an external collaborator —
is modelled as a state holding the existing index names and, per alias name,
the list of indexes the alias is attached to (empty list = alias absent, as in
Elasticsearch, where an alias only exists while attached to some index).
Alias-mutation, delete and other requests the command issues are recorded in a
trace so that theorems can speak about which requests were sent and in which
order.
-/

/-- Model of Python `str.startswith`: `pre` is a literal prefix of `s`.
`listIsPre` is the underlying character-list test. -/
def listIsPre : List Char → List Char → Bool
  | [], _ => true
  | _ :: _, [] => false
  | a :: xs, b :: ys => a == b && listIsPre xs ys

/-- Python `s.startswith(pre)`. -/
def pyStartsWith (s pre : String) : Bool :=
  listIsPre pre.data s.data

/-- Python `s.lower()` (ASCII case folding suffices for the embedded code). -/
def pyLower (s : String) : String :=
  String.mk (s.data.map Char.toLower)

/-- Character-list worker for Python `str.replace`; `fuel` starts at the
length of the subject string, which bounds the recursion because the
pattern is nonempty at every call site. -/
def pyReplaceAux (pat rep : List Char) : Nat → List Char → List Char
  | 0, s => s
  | _ + 1, [] => []
  | fuel + 1, c :: rest =>
    if listIsPre pat (c :: rest) then
      rep ++ pyReplaceAux pat rep fuel (List.drop pat.length (c :: rest))
    else c :: pyReplaceAux pat rep fuel rest

/-- Python `s.replace(pat, rep)` (every occurrence, left to right).  The
empty-pattern case is never reached by the embedded code, whose patterns
always start with the decimal run identifier. -/
def pyReplace (s pat rep : String) : String :=
  if pat.data.isEmpty then s
  else String.mk (pyReplaceAux pat.data rep.data s.data.length s.data)

/-- Errors the Python code can raise: a Django `CommandError`, the
`IndexError` from subscripting an empty list with `[0]`, and the
`IndexError` that `str.format` raises when a positional placeholder index
is out of range for the supplied arguments. -/
inductive Err where
  | commandError (msg : String)
  | listIndexOutOfRange
  | formatIndexOutOfRange
deriving DecidableEq

/-- Worker for Python `str.format` restricted to single-digit positional
placeholders (the only form the source uses); raises when the placeholder
index is not a valid position in `args`. -/
def pyFormatAux (args : List String) : List Char → Except Err (List Char)
  | [] => Except.ok []
  | c :: rest =>
    if c == Char.ofNat 123 then
      match rest with
      | d :: close :: rest2 =>
        if close == Char.ofNat 125 && d.isDigit then
          match args.get? (d.toNat - 48) with
          | some arg => (pyFormatAux args rest2).map (fun t => arg.data ++ t)
          | none => Except.error Err.formatIndexOutOfRange
        else Except.error Err.formatIndexOutOfRange
      | _ => Except.error Err.formatIndexOutOfRange
    else (pyFormatAux args rest).map (fun t => c :: t)

/-- Python `template.format(*args)` for the templates the source uses. -/
def pyFormat (template : String) (args : List String) : Except Err String :=
  (pyFormatAux args template.data).map String.mk

/-- The glob star character. -/
def starChar : Char := Char.ofNat 42

/-- Cluster-side index-name matching for alias actions: a pattern with a
trailing star matches every index it is a literal prefix of; any other
pattern matches only the identical name.  The embedded code only ever
issues literal names or `prefix` + star patterns. -/
def globMatch : List Char → List Char → Bool
  | [], [] => true
  | [], _ :: _ => false
  | c :: rest, s =>
    if c == starChar && rest.isEmpty then true
    else
      match s with
      | [] => false
      | d :: ds => c == d && globMatch rest ds

/-- A registered Django model, as seen through `model._meta`. -/
structure Model where
  appLabel : String
  modelName : String
deriving DecidableEq

/-- The document/model registry (external collaborator): the registered
models, and the index names of the documents / indices associated with a
model selection (`registry.get_documents` / `registry.get_indices`). -/
structure Registry where
  models : List Model
  docs : List Model → List String
  indices : List Model → List String

/-- The command options after `add_arguments` defaults are applied. -/
structure Options where
  indexBaseId : Nat
  aliasWildcardPattern : String
  aliasFixedPattern : String
  wipeOldIndexes : Bool

/-- Elasticsearch cluster state: the existing index names, and for every
alias name the list of indexes it is attached to.  An empty attachment
list means the alias does not exist (`get_alias` raises `NotFoundError`). -/
structure Cluster where
  indexes : List String
  aliasOf : String → List String

/-- One entry of the `actions` array of an `update_aliases` request. -/
inductive AliasAction where
  | remove (aliasName : String) (indices : List String)
  | add (aliasName : String) (index : String)
deriving DecidableEq

/-- A request issued to the cluster, as recorded in the trace. -/
inductive Req where
  | updateAliases (actions : List AliasAction)
  | deleteIndexes (indices : List String)
  | putTemplate (name pattern : String)
  | bulkIndex (indexBaseId : Nat) (docIndex : String)
  | refresh (pattern : String)
deriving DecidableEq

/-- `es.indices.get_alias(name=a)`: the indexes holding alias `a`, or
`none` for the `NotFoundError` case. -/
def getAlias (s : Cluster) (a : String) : Option (List String) :=
  if s.aliasOf a = [] then none else some (s.aliasOf a)

/-- Effect of one alias action on the cluster: `remove` detaches the alias
from the listed indexes, `add` attaches it to every existing index matching
the (possibly glob) index expression. -/
def applyAction (s : Cluster) : AliasAction → Cluster
  | AliasAction.remove a idxs =>
    { s with aliasOf := fun x =>
        if x = a then (s.aliasOf a).filter (fun i => decide (i ∉ idxs)) else s.aliasOf x }
  | AliasAction.add a t =>
    let fresh := (s.indexes.filter (fun i => globMatch t.data i.data)).filter
      (fun i => decide (i ∉ s.aliasOf a))
    { s with aliasOf := fun x => if x = a then s.aliasOf a ++ fresh else s.aliasOf x }

/-- Effect of a request on the cluster.  Deleting an index also detaches it
from every alias, as in Elasticsearch.  Template, bulk-indexing and refresh
requests do not alter the alias bookkeeping this model tracks (the physical
indexes created by `Document.update` are named outside this file's source
and no theorem reads the cluster state across the populate stage). -/
def applyReq (s : Cluster) : Req → Cluster
  | Req.updateAliases acts => acts.foldl applyAction s
  | Req.deleteIndexes idxs =>
    { indexes := s.indexes.filter (fun i => decide (i ∉ idxs)),
      aliasOf := fun a => (s.aliasOf a).filter (fun i => decide (i ∉ idxs)) }
  | Req.putTemplate _ _ => s
  | Req.bulkIndex _ _ => s
  | Req.refresh _ => s

/-- Apply a list of requests in order. -/
def applyReqs (s : Cluster) (reqs : List Req) : Cluster :=
  reqs.foldl applyReq s

/-- `Command._get_models`'s selector test for one registered model against
one (already lowercased) selector: the raw app label must equal the
selector, or `app_label.lower() + "." + model_name.lower()` must equal it
(the `elif` in the source appends the model at most once per selector). -/
def matchesArg (m : Model) (argLower : String) : Bool :=
  m.appLabel == argLower || (pyLower m.appLabel ++ "." ++ pyLower m.modelName) == argLower

/-- The `for arg in args` loop of `Command._get_models`: each selector is
lowercased, the registry is scanned for matches, and a `CommandError`
naming the (lowercased) selector is raised as soon as a selector matches
nothing. -/
def resolveArgs (registryModels : List Model) : List String → Except Err (List Model)
  | [] => Except.ok []
  | arg :: rest =>
    let a := pyLower arg
    let matched := registryModels.filter (fun m => matchesArg m a)
    if matched.isEmpty then
      Except.error (Err.commandError ("No model or app named " ++ a))
    else
      match resolveArgs registryModels rest with
      | Except.ok more => Except.ok (matched ++ more)
      | Except.error e => Except.error e

/-- `Command._get_models`: no selectors means every registered model.
(The final `set(models)` deduplication is not modelled; theorems only use
membership.) -/
def getModels (reg : Registry) (args : List String) : Except Err (List Model) :=
  match args with
  | [] => Except.ok reg.models
  | _ :: _ => resolveArgs reg.models args

/-- `Command._create_index_templates`: one create-or-replace template
request per document, with pattern `{index_base_id}-{doc index name}-*`. -/
def createIndexTemplates (reg : Registry) (models : List Model) (opts : Options) : List Req :=
  (reg.docs models).map (fun n =>
    Req.putTemplate n (toString opts.indexBaseId ++ "-" ++ n ++ "-*"))

/-- `Command._reindex_as_new`: one bulk-indexing pass per document under
the current run identifier.  Modelled from the spec: the physical index
creation happens inside `Document.update` (outside this repository's
`src/`), so the trace records the request abstractly. -/
def reindexAsNew (reg : Registry) (models : List Model) (opts : Options) : List Req :=
  (reg.docs models).map (fun n => Req.bulkIndex opts.indexBaseId n)

/-- The wildcard alias name `{index._name}{alias_wildcard_pattern}`. -/
def wAliasName (opts : Options) (indexName : String) : String :=
  indexName ++ opts.aliasWildcardPattern

/-- The wildcard pattern `{index_base_id}-{index._name}-*`. -/
def wPatternOf (opts : Options) (indexName : String) : String :=
  toString opts.indexBaseId ++ "-" ++ indexName ++ "-*"

/-- The requests `Command._update_wildcard_indexes` issues given the result
of the `get_alias` read: create the alias when the read raised
`NotFoundError`; skip when the first resolved index name starts with the
decimal run identifier; otherwise swap (one combined remove+add request)
and, when `wipe_old_indexes` is set and the (dead re-checked) same-run test
still fails, delete the old resolved indexes. -/
def wildcardStep (opts : Options) (indexName : String)
    (aliasRead : Option (List String)) : Except Err (List Req) :=
  let pattern := wPatternOf opts indexName
  let aliasName := wAliasName opts indexName
  match aliasRead with
  | some oldIndexes =>
    match oldIndexes with
    | [] => Except.error Err.listIndexOutOfRange
    | first :: _ =>
      if pyStartsWith first (toString opts.indexBaseId) then
        Except.ok []
      else
        let swap := Req.updateAliases
          [AliasAction.remove aliasName oldIndexes, AliasAction.add aliasName pattern]
        if opts.wipeOldIndexes then
          if pyStartsWith first (toString opts.indexBaseId) then
            Except.ok [swap]
          else
            Except.ok [swap, Req.deleteIndexes oldIndexes]
        else Except.ok [swap]
  | none =>
    Except.ok [Req.updateAliases [AliasAction.add aliasName pattern]]

/-- `Command._update_wildcard_indexes` against the cluster state: read the
alias, issue the resulting requests in order. -/
def updateWildcardIndexes (opts : Options) (indexName : String) (s : Cluster) :
    Except Err (Cluster × List Req) :=
  match wildcardStep opts indexName (getAlias s (wAliasName opts indexName)) with
  | Except.ok reqs => Except.ok (applyReqs s reqs, reqs)
  | Except.error e => Except.error e

/-- The fixed alias name for one physical index: the document postfix is
obtained by deleting every occurrence of `{index_base_id}-{index._name}`
from the physical index name. -/
def fixedAliasName (opts : Options) (indexName currentIndex : String) : String :=
  indexName ++ opts.aliasFixedPattern ++
    pyReplace currentIndex (toString opts.indexBaseId ++ "-" ++ indexName) ""

/-- The body of the `for current_index in current_indexes` loop of
`Command._update_fixed_indexes`: read the fixed alias; replace its targets
with the current index in one combined request, or create it fresh when
the read raised `NotFoundError`. -/
def fixedStepOne (opts : Options) (indexName currentIndex : String) (s : Cluster) :
    Cluster × List Req :=
  let aliasName := fixedAliasName opts indexName currentIndex
  match getAlias s aliasName with
  | some oldIndexes =>
    let req := Req.updateAliases
      [AliasAction.remove aliasName oldIndexes, AliasAction.add aliasName currentIndex]
    (applyReq s req, [req])
  | none =>
    let req := Req.updateAliases [AliasAction.add aliasName currentIndex]
    (applyReq s req, [req])

/-- The whole fixed-alias loop, threading the cluster state. -/
def fixedLoop (opts : Options) (indexName : String) :
    List String → Cluster → Cluster × List Req
  | [], s => (s, [])
  | ci :: rest, s =>
    let p1 := fixedStepOne opts indexName ci s
    let p2 := fixedLoop opts indexName rest p1.1
    (p2.1, p1.2 ++ p2.2)

/-- The log template of the `NotFoundError` branch of
`Command._update_fixed_indexes`, verbatim from the source (note the `{1}`
placeholder — `format` is called with a single argument). -/
def fixedMissingMsg : String :=
  "No Existing indexes found for alias \x27{1}\x27 - Not creating Fixed indexes"

/-- `Command._update_fixed_indexes` given the result of the wildcard-alias
read: on `NotFoundError` the source formats a log line (which itself
raises, see `fixedMissingMsg`); on success it subscripts the resolved list
with `[0]`, skips when the first name does not start with the decimal run
identifier, and otherwise runs the per-index loop. -/
def fixedStep (opts : Options) (indexName : String)
    (aliasRead : Option (List String)) (s : Cluster) :
    Except Err (Cluster × List Req) :=
  match aliasRead with
  | none =>
    match pyFormat fixedMissingMsg [wAliasName opts indexName] with
    | Except.ok _ => Except.ok (s, [])
    | Except.error e => Except.error e
  | some currentIndexes =>
    match currentIndexes with
    | [] => Except.error Err.listIndexOutOfRange
    | first :: _ =>
      if !pyStartsWith first (toString opts.indexBaseId) then Except.ok (s, [])
      else Except.ok (fixedLoop opts indexName currentIndexes s)

/-- `Command._update_fixed_indexes` against the cluster state. -/
def updateFixedIndexes (opts : Options) (indexName : String) (s : Cluster) :
    Except Err (Cluster × List Req) :=
  fixedStep opts indexName (getAlias s (wAliasName opts indexName)) s

/-- The body of `Command._update_alias` for one index family: the wildcard
update runs first, the fixed update second, on the state the wildcard
update left behind. -/
def updateAliasOne (opts : Options) (indexName : String) (s : Cluster) :
    Except Err (Cluster × List Req) :=
  match updateWildcardIndexes opts indexName s with
  | Except.error e => Except.error e
  | Except.ok (s1, r1) =>
    match updateFixedIndexes opts indexName s1 with
    | Except.error e => Except.error e
    | Except.ok (s2, r2) => Except.ok (s2, r1 ++ r2)

/-- `Command._update_alias`: the per-family step over every index family. -/
def updateAliasAll (opts : Options) :
    List String → Cluster → Except Err (Cluster × List Req)
  | [], s => Except.ok (s, [])
  | fam :: rest, s =>
    match updateAliasOne opts fam s with
    | Except.error e => Except.error e
    | Except.ok (s1, r1) =>
      match updateAliasAll opts rest s1 with
      | Except.error e => Except.error e
      | Except.ok (s2, r2) => Except.ok (s2, r1 ++ r2)

/-- `Command.handle`: resolve models (raising `CommandError` before any
cluster interaction), publish templates, populate, optionally refresh,
optionally run the alias coordinator.  Returns the request trace together
with the outcome; an error carries the trace issued up to that point. -/
def handleT (reg : Registry) (opts : Options) (refreshNew doAlias : Bool)
    (args : List String) (s : Cluster) : List Req × Except Err Cluster :=
  match getModels reg args with
  | Except.error e => ([], Except.error e)
  | Except.ok models =>
    let rT := createIndexTemplates reg models opts
    let s1 := applyReqs s rT
    let rB := reindexAsNew reg models opts
    let s2 := applyReqs s1 rB
    let rR := if refreshNew then [Req.refresh (toString opts.indexBaseId ++ "-*")] else []
    let s3 := applyReqs s2 rR
    if doAlias then
      match updateAliasAll opts (reg.indices models) s3 with
      | Except.ok (s4, rA) => (rT ++ rB ++ rR ++ rA, Except.ok s4)
      | Except.error e => (rT ++ rB ++ rR, Except.error e)
    else (rT ++ rB ++ rR, Except.ok s3)

/-- The index names targeted by `add` actions in a request trace (used to
state that the fixed-alias stage aliases exactly the indexes the wildcard
alias resolved to). -/
def addTargets (reqs : List Req) : List String :=
  (reqs.map (fun r =>
    match r with
    | Req.updateAliases acts =>
      acts.filterMap (fun a =>
        match a with
        | AliasAction.add _ i => some i
        | AliasAction.remove _ _ => none)
    | _ => [])).flatten

/-- The alias-mutation requests in a trace. -/
def mutationCount (reqs : List Req) : Nat :=
  (reqs.filter (fun r =>
    match r with
    | Req.updateAliases _ => true
    | _ => false)).length

/-- Replace one alias's attachment list, leaving everything else alone. -/
def overwriteAlias (s : Cluster) (a : String) (v : List String) : Cluster :=
  { s with aliasOf := fun x => if x = a then v else s.aliasOf x }

/-- The prefix part of the wildcard pattern, `{index_base_id}-{index._name}-`. -/
def wPreOf (opts : Options) (indexName : String) : String :=
  toString opts.indexBaseId ++ "-" ++ indexName ++ "-"

/-- The indexes of a state that match the wildcard pattern. -/
def wMatching (opts : Options) (indexName : String) (s : Cluster) : List String :=
  s.indexes.filter (fun i => globMatch (wPatternOf opts indexName).data i.data)

/-- The indexes a concrete `add` target expression attaches to. -/
def mOf (idxs : List String) (ci : String) : List String :=
  idxs.filter (fun i => globMatch ci.data i.data)

/-- A sequence of per-alias overwrites, applied left to right. -/
def applyWrites : List (String × List String) → (String → List String) → String → List String
  | [], f => f
  | w :: ws, f => applyWrites ws (fun x => if x = w.1 then w.2 else f x)

/-- The value the last write to a given alias name would leave, if any. -/
def lastWrite : List (String × List String) → String → Option (List String)
  | [], _ => none
  | w :: ws, a =>
    match lastWrite ws a with
    | some r => some r
    | none => if a = w.1 then some w.2 else none

/-- The writes the fixed-alias loop performs for a resolved index list,
relative to a fixed physical-index list. -/
def fixedWrites (opts : Options) (indexName : String) (idxs : List String)
    (L : List String) : List (String × List String) :=
  L.map (fun ci => (fixedAliasName opts indexName ci, mOf idxs ci))

/-- The command defaults with run identifier 1000 and garbage collection
(`wipe_old_indexes`) enabled. -/
def optsWipe : Options := ⟨1000, "_r_wildcard", "_r", true⟩

/-- The same options with garbage collection disabled. -/
def optsKeep : Options := ⟨1000, "_r_wildcard", "_r", false⟩

/-- The spec's book scenario: old-generation index `999-book-novel`
holding the wildcard alias `book_r_wildcard`, fresh index
`1000-book-novel` just populated. -/
def sBook : Cluster :=
  ⟨["999-book-novel", "1000-book-novel"],
   fun a => if a = "book_r_wildcard" then ["999-book-novel"] else []⟩

/-- An empty cluster: no indexes, no aliases. -/
def emptyCluster : Cluster := ⟨[], fun _ => []⟩

/-- A cluster whose wildcard alias resolves to a mix of an old-generation
index and a current-run index. -/
def sMixed : Cluster :=
  ⟨["999-book-a", "1000-book-b"],
   fun a => if a = "book_r_wildcard" then ["999-book-a", "1000-book-b"] else []⟩

/-- A cluster whose wildcard alias resolves to an old index first and then
an index of a different run whose name begins with the digits 1000. -/
def sTen : Cluster :=
  ⟨["999-book-a", "10001-book-x"],
   fun a => if a = "book_r_wildcard" then ["999-book-a", "10001-book-x"] else []⟩

/-- A cluster whose wildcard alias resolves only to `10001-book-x`. -/
def sTenW : Cluster :=
  ⟨["10001-book-x"],
   fun a => if a = "book_r_wildcard" then ["10001-book-x"] else []⟩

/-- A one-model registry with a lowercase app label. -/
def regDemo : Registry := ⟨[⟨"auth", "user"⟩], fun _ => [], fun _ => []⟩

/-- A one-model registry whose app label contains an uppercase letter. -/
def regUpper : Registry := ⟨[⟨"Auth", "user"⟩], fun _ => [], fun _ => []⟩

/-- Two cluster states are equal when their index lists agree and every
alias resolves identically. -/
theorem clusterExt {a b : Cluster} (h1 : a.indexes = b.indexes)
    (h2 : ∀ x, a.aliasOf x = b.aliasOf x) : a = b := by
  cases a with
  | mk ia fa =>
    cases b with
    | mk ib fb =>
      cases h1
      have hf : fa = fb := funext h2
      rw [hf]

/-- A prefix test survives dropping a suffix of the pattern. -/
theorem listIsPre_append_left {xs ys zs : List Char}
    (h : listIsPre (xs ++ ys) zs = true) : listIsPre xs zs = true := by
  induction xs generalizing zs with
  | nil => rfl
  | cons a xs ih =>
    cases zs with
    | nil => simp [listIsPre] at h
    | cons b zs =>
      simp only [List.cons_append, listIsPre, Bool.and_eq_true] at h ⊢
      exact ⟨h.1, ih h.2⟩

/-- Matching against a trailing-star glob is exactly the prefix test on the
part before the star. -/
theorem globMatch_concat_star (xs ys : List Char) :
    globMatch (xs ++ [starChar]) ys = listIsPre xs ys := by
  induction xs generalizing ys with
  | nil =>
    simp [globMatch, listIsPre]
  | cons a xs ih =>
    have hne : (xs ++ [starChar]).isEmpty = false := by
      simp [List.isEmpty_iff]
    cases ys with
    | nil => simp [globMatch, listIsPre, hne]
    | cons d ds => simp [globMatch, listIsPre, hne, ih]

/-- Filtering a list by non-membership in itself empties it. -/
theorem filter_not_mem_self (l : List String) :
    l.filter (fun i => decide (i ∉ l)) = [] := by
  rw [List.filter_eq_nil_iff]
  intro a ha
  simp [ha]

/-- Filtering by non-membership in the empty list keeps everything. -/
theorem filter_not_mem_nil (l : List String) :
    l.filter (fun i => decide (i ∉ ([] : List String))) = l := by
  rw [List.filter_eq_self]
  intro a _
  simp

/-- A `get_alias` miss means the alias has no attachments. -/
theorem getAlias_eq_none {s : Cluster} {a : String}
    (h : getAlias s a = none) : s.aliasOf a = [] := by
  unfold getAlias at h
  by_cases he : s.aliasOf a = []
  · exact he
  · simp [he] at h

/-- A `get_alias` hit returns exactly the (nonempty) attachment list. -/
theorem getAlias_eq_some {s : Cluster} {a : String} {l : List String}
    (h : getAlias s a = some l) : s.aliasOf a = l ∧ l ≠ [] := by
  unfold getAlias at h
  by_cases he : s.aliasOf a = []
  · simp [he] at h
  · simp [he] at h
    exact ⟨h, h ▸ he⟩

/-- A combined remove-all-current + add request overwrites the alias with
the indexes matching the added expression. -/
theorem applyReq_swap (s : Cluster) (a t : String) :
    applyReq s (Req.updateAliases
      [AliasAction.remove a (s.aliasOf a), AliasAction.add a t]) =
    overwriteAlias s a (s.indexes.filter (fun i => globMatch t.data i.data)) := by
  apply clusterExt
  · rfl
  · intro x
    by_cases hx : x = a
    · subst hx
      simp [applyReq, applyAction, overwriteAlias, filter_not_mem_self]
    · simp [applyReq, applyAction, overwriteAlias, hx]

/-- Adding to a currently absent alias attaches exactly the matching
indexes. -/
theorem applyReq_add {s : Cluster} {a : String} (t : String)
    (h : s.aliasOf a = []) :
    applyReq s (Req.updateAliases [AliasAction.add a t]) =
    overwriteAlias s a (s.indexes.filter (fun i => globMatch t.data i.data)) := by
  apply clusterExt
  · rfl
  · intro x
    by_cases hx : x = a
    · subst hx
      simp [applyReq, applyAction, overwriteAlias, h]
    · simp [applyReq, applyAction, overwriteAlias, hx]

/-- The wildcard pattern is its prefix part followed by the star. -/
theorem wPatternOf_data (opts : Options) (indexName : String) :
    (wPatternOf opts indexName).data = (wPreOf opts indexName).data ++ [starChar] := by
  have h2 : "-*".data = "-".data ++ [starChar] := by decide
  simp [wPatternOf, wPreOf, String.data_append, h2]
  decide

/-- Unfolding `applyReqs` on short request lists. -/
theorem applyReqs_one (s : Cluster) (r : Req) : applyReqs s [r] = applyReq s r := rfl

/-- Unfolding `applyReqs` on two requests. -/
theorem applyReqs_two (s : Cluster) (r1 r2 : Req) :
    applyReqs s [r1, r2] = applyReq (applyReq s r1) r2 := rfl

/-- Every index matching the wildcard pattern starts with the decimal run
identifier. -/
theorem wMatching_startsWith {opts : Options} {indexName : String} {s : Cluster}
    {i : String} (h : i ∈ wMatching opts indexName s) :
    pyStartsWith i (toString opts.indexBaseId) = true := by
  have hg : globMatch (wPatternOf opts indexName).data i.data = true :=
    (List.mem_filter.mp h).2
  rw [wPatternOf_data, globMatch_concat_star] at hg
  have hpre : (wPreOf opts indexName).data =
      (toString opts.indexBaseId).data ++ ("-" ++ indexName ++ "-").data := by
    simp [wPreOf, String.data_append]
  rw [hpre] at hg
  exact listIsPre_append_left hg

/-- Same-run skip branch of `_update_wildcard_indexes`: when the first
resolved index name starts with the run identifier, the state is untouched
and no request is issued. -/
theorem updateWildcard_skip {opts : Options} {indexName : String} {s : Cluster}
    {first : String} {rest : List String}
    (hread : getAlias s (wAliasName opts indexName) = some (first :: rest))
    (hfirst : pyStartsWith first (toString opts.indexBaseId) = true) :
    updateWildcardIndexes opts indexName s = Except.ok (s, []) := by
  unfold updateWildcardIndexes
  rw [hread]
  simp [wildcardStep, hfirst, applyReqs]

/-- `NotFoundError` branch of `_update_wildcard_indexes`: the alias is
created with a single add-only request. -/
theorem updateWildcard_create {opts : Options} {indexName : String} {s : Cluster}
    (hread : getAlias s (wAliasName opts indexName) = none) :
    updateWildcardIndexes opts indexName s = Except.ok
      (overwriteAlias s (wAliasName opts indexName) (wMatching opts indexName s),
       [Req.updateAliases
         [AliasAction.add (wAliasName opts indexName) (wPatternOf opts indexName)]]) := by
  unfold updateWildcardIndexes
  rw [hread]
  simp only [wildcardStep]
  rw [applyReqs_one, applyReq_add _ (getAlias_eq_none hread)]
  rfl

/-- Swap branch with garbage collection: one combined remove+add request
followed by a delete of the old resolved indexes. -/
theorem updateWildcard_swap_wipe {opts : Options} {indexName : String} {s : Cluster}
    {first : String} {rest : List String}
    (hread : getAlias s (wAliasName opts indexName) = some (first :: rest))
    (hfirst : pyStartsWith first (toString opts.indexBaseId) = false)
    (hwipe : opts.wipeOldIndexes = true) :
    updateWildcardIndexes opts indexName s = Except.ok
      (applyReq (overwriteAlias s (wAliasName opts indexName) (wMatching opts indexName s))
        (Req.deleteIndexes (first :: rest)),
       [Req.updateAliases
         [AliasAction.remove (wAliasName opts indexName) (first :: rest),
          AliasAction.add (wAliasName opts indexName) (wPatternOf opts indexName)],
        Req.deleteIndexes (first :: rest)]) := by
  have hatt : s.aliasOf (wAliasName opts indexName) = first :: rest :=
    (getAlias_eq_some hread).1
  unfold updateWildcardIndexes
  rw [hread]
  simp only [wildcardStep, hfirst, hwipe, Bool.false_eq_true, if_false, if_true]
  rw [applyReqs_two, ← hatt, applyReq_swap]
  rfl

/-- Swap branch without garbage collection: the single combined remove+add
request is the only one issued. -/
theorem updateWildcard_swap_keep {opts : Options} {indexName : String} {s : Cluster}
    {first : String} {rest : List String}
    (hread : getAlias s (wAliasName opts indexName) = some (first :: rest))
    (hfirst : pyStartsWith first (toString opts.indexBaseId) = false)
    (hwipe : opts.wipeOldIndexes = false) :
    updateWildcardIndexes opts indexName s = Except.ok
      (overwriteAlias s (wAliasName opts indexName) (wMatching opts indexName s),
       [Req.updateAliases
         [AliasAction.remove (wAliasName opts indexName) (first :: rest),
          AliasAction.add (wAliasName opts indexName) (wPatternOf opts indexName)]]) := by
  have hatt : s.aliasOf (wAliasName opts indexName) = first :: rest :=
    (getAlias_eq_some hread).1
  unfold updateWildcardIndexes
  rw [hread]
  simp only [wildcardStep, hfirst, hwipe, Bool.false_eq_true, if_false]
  rw [applyReqs_one, ← hatt, applyReq_swap]
  rfl

/-- One fixed-alias step overwrites exactly its own alias with the indexes
matching the current index name, whether or not the alias existed. -/
theorem fixedStepOne_state (opts : Options) (indexName ci : String) (s : Cluster) :
    (fixedStepOne opts indexName ci s).1 =
    overwriteAlias s (fixedAliasName opts indexName ci) (mOf s.indexes ci) := by
  cases hread : getAlias s (fixedAliasName opts indexName ci) with
  | none =>
    unfold fixedStepOne
    simp only [hread]
    exact applyReq_add ci (getAlias_eq_none hread)
  | some l =>
    have hatt : s.aliasOf (fixedAliasName opts indexName ci) = l :=
      (getAlias_eq_some hread).1
    unfold fixedStepOne
    simp only [hread]
    rw [← hatt]
    exact applyReq_swap s (fixedAliasName opts indexName ci) ci

/-- One fixed-alias step never changes the index list. -/
theorem fixedStepOne_indexes (opts : Options) (indexName ci : String) (s : Cluster) :
    (fixedStepOne opts indexName ci s).1.indexes = s.indexes := by
  rw [fixedStepOne_state]
  rfl

/-- A write sequence reads back as: the last write to the name, defaulting
to the underlying map. -/
theorem applyWrites_eq_lastWrite (W : List (String × List String))
    (f : String → List String) (a : String) :
    applyWrites W f a = (lastWrite W a).getD (f a) := by
  induction W generalizing f with
  | nil => rfl
  | cons w ws ih =>
    show applyWrites ws _ a = _
    rw [ih]
    show _ = (match lastWrite ws a with
      | some r => some r
      | none => if a = w.1 then some w.2 else none).getD (f a)
    cases hlw : lastWrite ws a with
    | some r => simp [hlw]
    | none =>
      by_cases hx : a = w.1
      · simp [hlw, hx]
      · simp [hlw, hx]

/-- Replaying the same write sequence is a no-op. -/
theorem applyWrites_replay (W : List (String × List String))
    (f : String → List String) (a : String) :
    applyWrites W (applyWrites W f) a = applyWrites W f a := by
  rw [applyWrites_eq_lastWrite, applyWrites_eq_lastWrite]
  cases hlw : lastWrite W a with
  | some r => rfl
  | none => rfl

/-- Names no write touches read back unchanged. -/
theorem applyWrites_not_mem (W : List (String × List String))
    (f : String → List String) (a : String)
    (h : a ∉ W.map Prod.fst) : applyWrites W f a = f a := by
  have hlw : lastWrite W a = none := by
    induction W with
    | nil => rfl
    | cons w ws ih =>
      have h1 : a ∉ ws.map Prod.fst := fun hm => h (List.mem_cons_of_mem _ hm)
      have h2 : a ≠ w.1 := fun he => h (by simp [he])
      show (match lastWrite ws a with
        | some r => some r
        | none => if a = w.1 then some w.2 else none) = none
      rw [ih h1]
      simp [h2]
  rw [applyWrites_eq_lastWrite, hlw]
  rfl

/-- The fixed-alias loop never changes the index list. -/
theorem fixedLoop_indexes (opts : Options) (indexName : String)
    (L : List String) (s : Cluster) :
    (fixedLoop opts indexName L s).1.indexes = s.indexes := by
  induction L generalizing s with
  | nil => rfl
  | cons ci rest ih =>
    show (fixedLoop opts indexName rest (fixedStepOne opts indexName ci s).1).1.indexes = _
    rw [ih, fixedStepOne_indexes]

/-- The fixed-alias loop is exactly the corresponding write sequence. -/
theorem fixedLoop_aliasOf (opts : Options) (indexName : String)
    (L : List String) (s : Cluster) (a : String) :
    (fixedLoop opts indexName L s).1.aliasOf a =
    applyWrites (fixedWrites opts indexName s.indexes L) s.aliasOf a := by
  induction L generalizing s with
  | nil => rfl
  | cons ci rest ih =>
    show (fixedLoop opts indexName rest (fixedStepOne opts indexName ci s).1).1.aliasOf a = _
    rw [ih, fixedStepOne_state]
    show applyWrites (fixedWrites opts indexName s.indexes rest) _ a = _
    show _ = applyWrites (fixedWrites opts indexName s.indexes rest)
      (fun x => if x = fixedAliasName opts indexName ci then mOf s.indexes ci
        else s.aliasOf x) a
    rfl

/-- Replaying the whole fixed-alias loop from its own result state changes
nothing. -/
theorem fixedLoop_replay (opts : Options) (indexName : String)
    (L : List String) (s : Cluster) :
    (fixedLoop opts indexName L ((fixedLoop opts indexName L s).1)).1 =
    (fixedLoop opts indexName L s).1 := by
  apply clusterExt
  · rw [fixedLoop_indexes, fixedLoop_indexes]
  · intro a
    rw [fixedLoop_aliasOf, fixedLoop_indexes, applyWrites_eq_lastWrite]
    cases hlw : lastWrite (fixedWrites opts indexName s.indexes L) a with
    | some r =>
      rw [fixedLoop_aliasOf, applyWrites_eq_lastWrite, hlw]
      rfl
    | none => rfl

/-- `str.format` on the `NotFoundError` log template of
`_update_fixed_indexes` always raises: the template's `{1}` placeholder is
out of range for the single supplied argument. -/
theorem pyFormat_fixedMissingMsg (x : String) :
    pyFormat fixedMissingMsg [x] = Except.error Err.formatIndexOutOfRange := rfl

/-- `_update_fixed_indexes` on a missing wildcard alias raises the
`IndexError` coming from the broken log format call. -/
theorem updateFixed_missing {opts : Options} {indexName : String} {s : Cluster}
    (hread : getAlias s (wAliasName opts indexName) = none) :
    updateFixedIndexes opts indexName s = Except.error Err.formatIndexOutOfRange := by
  unfold updateFixedIndexes
  rw [hread]
  simp [fixedStep, pyFormat_fixedMissingMsg]

/-- `_update_fixed_indexes` when the wildcard alias resolves to a
current-generation list: the per-index loop runs. -/
theorem updateFixed_proceed {opts : Options} {indexName : String} {s : Cluster}
    {first : String} {rest : List String}
    (hread : getAlias s (wAliasName opts indexName) = some (first :: rest))
    (hfirst : pyStartsWith first (toString opts.indexBaseId) = true) :
    updateFixedIndexes opts indexName s =
      Except.ok (fixedLoop opts indexName (first :: rest) s) := by
  unfold updateFixedIndexes
  rw [hread]
  simp [fixedStep, hfirst]

/-- `_update_fixed_indexes` when the wildcard alias still resolves to a
stale generation: skip, no request. -/
theorem updateFixed_stale {opts : Options} {indexName : String} {s : Cluster}
    {first : String} {rest : List String}
    (hread : getAlias s (wAliasName opts indexName) = some (first :: rest))
    (hfirst : pyStartsWith first (toString opts.indexBaseId) = false) :
    updateFixedIndexes opts indexName s = Except.ok (s, []) := by
  unfold updateFixedIndexes
  rw [hread]
  simp [fixedStep, hfirst]

/-- `addTargets` distributes over trace concatenation. -/
theorem addTargets_append (r1 r2 : List Req) :
    addTargets (r1 ++ r2) = addTargets r1 ++ addTargets r2 := by
  simp [addTargets]

/-- Each fixed-alias step adds exactly its current index. -/
theorem fixedStepOne_addTargets (opts : Options) (indexName ci : String) (s : Cluster) :
    addTargets (fixedStepOne opts indexName ci s).2 = [ci] := by
  cases hread : getAlias s (fixedAliasName opts indexName ci) with
  | none =>
    unfold fixedStepOne
    simp [hread, addTargets]
  | some l =>
    unfold fixedStepOne
    simp [hread, addTargets]

/-- The fixed-alias loop adds aliases for exactly the resolved index list,
in order. -/
theorem fixedLoop_addTargets (opts : Options) (indexName : String)
    (L : List String) (s : Cluster) :
    addTargets (fixedLoop opts indexName L s).2 = L := by
  induction L generalizing s with
  | nil => rfl
  | cons ci rest ih =>
    show addTargets ((fixedStepOne opts indexName ci s).2 ++
      (fixedLoop opts indexName rest (fixedStepOne opts indexName ci s).1).2) = ci :: rest
    rw [addTargets_append, fixedStepOne_addTargets, ih]
    rfl

/-- After a fixed-alias pass over a current-generation resolution, the
whole per-family alias stage is idempotent: the wildcard alias still
resolves to the same list, the wildcard update skips, and replaying the
fixed update reproduces the same state. -/
theorem fixed_then_idem (opts : Options) (indexName : String) (u : Cluster)
    (c : String) (cs : List String)
    (hatt : u.aliasOf (wAliasName opts indexName) = c :: cs)
    (hc : pyStartsWith c (toString opts.indexBaseId) = true)
    (hnames : ∀ ci ∈ c :: cs,
      fixedAliasName opts indexName ci ≠ wAliasName opts indexName) :
    updateFixedIndexes opts indexName u =
      Except.ok (fixedLoop opts indexName (c :: cs) u) ∧
    updateWildcardIndexes opts indexName (fixedLoop opts indexName (c :: cs) u).1 =
      Except.ok ((fixedLoop opts indexName (c :: cs) u).1, []) ∧
    (∃ r2, updateFixedIndexes opts indexName (fixedLoop opts indexName (c :: cs) u).1 =
      Except.ok ((fixedLoop opts indexName (c :: cs) u).1, r2)) := by
  have hread : getAlias u (wAliasName opts indexName) = some (c :: cs) := by
    unfold getAlias
    rw [hatt]
    simp
  have hkeys : wAliasName opts indexName ∉
      (fixedWrites opts indexName u.indexes (c :: cs)).map Prod.fst := by
    intro hmem
    simp only [fixedWrites, List.map_map] at hmem
    obtain ⟨ci, hci, he⟩ := List.mem_map.mp hmem
    exact hnames ci hci he
  have hA2 : (fixedLoop opts indexName (c :: cs) u).1.aliasOf
      (wAliasName opts indexName) = c :: cs := by
    rw [fixedLoop_aliasOf, applyWrites_not_mem _ _ _ hkeys, hatt]
  have hreadt : getAlias (fixedLoop opts indexName (c :: cs) u).1
      (wAliasName opts indexName) = some (c :: cs) := by
    unfold getAlias
    rw [hA2]
    simp
  refine ⟨updateFixed_proceed hread hc, updateWildcard_skip hreadt hc, ?_⟩
  refine ⟨(fixedLoop opts indexName (c :: cs) (fixedLoop opts indexName (c :: cs) u).1).2, ?_⟩
  rw [updateFixed_proceed hreadt hc]
  have hpair : fixedLoop opts indexName (c :: cs) (fixedLoop opts indexName (c :: cs) u).1 =
      ((fixedLoop opts indexName (c :: cs) (fixedLoop opts indexName (c :: cs) u).1).1,
       (fixedLoop opts indexName (c :: cs) (fixedLoop opts indexName (c :: cs) u).1).2) := rfl
  rw [hpair, fixedLoop_replay]

/-- A successful per-family alias stage decomposes sequentially: the
wildcard update ran first from the input state, the fixed update ran
second from the wildcard update's result state, and the trace is their
concatenation. -/
theorem updateAliasOne_decomp (opts : Options) (indexName : String) (s : Cluster)
    {st : Cluster} {r : List Req}
    (h : updateAliasOne opts indexName s = Except.ok (st, r)) :
    ∃ s1 r1 r2, updateWildcardIndexes opts indexName s = Except.ok (s1, r1) ∧
      updateFixedIndexes opts indexName s1 = Except.ok (st, r2) ∧ r = r1 ++ r2 := by
  unfold updateAliasOne at h
  cases hw : updateWildcardIndexes opts indexName s with
  | error e => rw [hw] at h; simp at h
  | ok p =>
    obtain ⟨s1, r1⟩ := p
    rw [hw] at h
    simp only at h
    cases hf : updateFixedIndexes opts indexName s1 with
    | error e => rw [hf] at h; simp at h
    | ok q =>
      obtain ⟨s2, r2⟩ := q
      rw [hf] at h
      simp only [Except.ok.injEq, Prod.mk.injEq] at h
      exact ⟨s1, r1, r2, rfl, by rw [hf, h.1], h.2.symm⟩

/-- Composing the two stage results yields the per-family stage result. -/
theorem updateAliasOne_compose {opts : Options} {indexName : String}
    {s s1 st : Cluster} {r1 r2 : List Req}
    (hw : updateWildcardIndexes opts indexName s = Except.ok (s1, r1))
    (hf : updateFixedIndexes opts indexName s1 = Except.ok (st, r2)) :
    updateAliasOne opts indexName s = Except.ok (st, r1 ++ r2) := by
  unfold updateAliasOne
  rw [hw]
  simp only
  rw [hf]

/-- When the wildcard alias of the post-wildcard state is only attached to
pattern-matching indexes (as after a create or swap), the fixed stage
either crashed on an empty resolution or left a state on which both stages
of a second run are no-ops. -/
theorem secondRunFromPost (opts : Options) (indexName : String)
    (s sW s1 : Cluster) (rF : List Req)
    (hfix : ∀ i ∈ s.indexes,
      fixedAliasName opts indexName i ≠ wAliasName opts indexName)
    (hLsub : ∀ i ∈ sW.aliasOf (wAliasName opts indexName),
      i ∈ wMatching opts indexName s)
    (hf : updateFixedIndexes opts indexName sW = Except.ok (s1, rF)) :
    ∃ r2, updateAliasOne opts indexName s1 = Except.ok (s1, r2) ∧
      updateWildcardIndexes opts indexName s1 = Except.ok (s1, []) := by
  cases hM : sW.aliasOf (wAliasName opts indexName) with
  | nil =>
    have hnone : getAlias sW (wAliasName opts indexName) = none := by
      unfold getAlias
      rw [hM]
      simp
    rw [updateFixed_missing hnone] at hf
    simp at hf
  | cons c cs =>
    have hcmem : c ∈ wMatching opts indexName s :=
      hLsub c (by rw [hM]; exact List.mem_cons_self c cs)
    have hc : pyStartsWith c (toString opts.indexBaseId) = true :=
      wMatching_startsWith hcmem
    have hnames : ∀ ci ∈ c :: cs,
        fixedAliasName opts indexName ci ≠ wAliasName opts indexName := by
      intro ci hci
      apply hfix
      have hmem : ci ∈ wMatching opts indexName s := hLsub ci (by rw [hM]; exact hci)
      exact (List.mem_filter.mp hmem).1
    obtain ⟨hfp, hskip, r2', hfixt⟩ :=
      fixed_then_idem opts indexName sW c cs hM hc hnames
    have h := hfp.symm.trans hf
    simp only [Except.ok.injEq] at h
    have hs1 : (fixedLoop opts indexName (c :: cs) sW).1 = s1 := by rw [h]
    rw [← hs1]
    exact ⟨[] ++ r2', updateAliasOne_compose hskip hfixt, hskip⟩

/-- Claim C1: the per-family alias stage is idempotent.  If a run of the
stage (wildcard update then fixed update) succeeds from a state whose
wildcard alias is only attached to existing indexes and whose fixed-alias
names cannot collide with the wildcard alias name, then running the stage
again from the resulting state succeeds, leaves the state exactly as it
was, and the second run's wildcard stage skips: it issues no
alias-mutation and no delete request (so garbage collection is skipped as
well). -/
theorem aliasStageIdempotent (opts : Options) (indexName : String)
    (s s1 : Cluster) (r1 : List Req)
    (hsub : ∀ i ∈ s.aliasOf (wAliasName opts indexName), i ∈ s.indexes)
    (hfix : ∀ i ∈ s.indexes,
      fixedAliasName opts indexName i ≠ wAliasName opts indexName)
    (hrun : updateAliasOne opts indexName s = Except.ok (s1, r1)) :
    ∃ r2, updateAliasOne opts indexName s1 = Except.ok (s1, r2) ∧
      updateWildcardIndexes opts indexName s1 = Except.ok (s1, []) := by
  obtain ⟨sW, rW, rF, hw, hf, hr⟩ := updateAliasOne_decomp opts indexName s hrun
  cases hread : getAlias s (wAliasName opts indexName) with
  | none =>
    have h12 := hw.symm.trans (updateWildcard_create hread)
    simp only [Except.ok.injEq, Prod.mk.injEq] at h12
    obtain ⟨hsW, hrW⟩ := h12
    apply secondRunFromPost opts indexName s sW s1 rF hfix _ hf
    intro i hi
    rw [hsW] at hi
    simp only [overwriteAlias, if_pos rfl] at hi
    exact hi
  | some old =>
    cases old with
    | nil => exact absurd rfl (getAlias_eq_some hread).2
    | cons f rest =>
      by_cases hfst : pyStartsWith f (toString opts.indexBaseId) = true
      · have h12 := hw.symm.trans (updateWildcard_skip hread hfst)
        simp only [Except.ok.injEq, Prod.mk.injEq] at h12
        obtain ⟨hsW, hrW⟩ := h12
        have hatt : s.aliasOf (wAliasName opts indexName) = f :: rest :=
          (getAlias_eq_some hread).1
        have hnames : ∀ ci ∈ f :: rest,
            fixedAliasName opts indexName ci ≠ wAliasName opts indexName := by
          intro ci hci
          exact hfix ci (hsub ci (by rw [hatt]; exact hci))
        obtain ⟨hfp, hskip, r2', hfixt⟩ :=
          fixed_then_idem opts indexName s f rest hatt hfst hnames
        rw [hsW] at hf
        have h := hfp.symm.trans hf
        simp only [Except.ok.injEq] at h
        have hs1 : (fixedLoop opts indexName (f :: rest) s).1 = s1 := by rw [h]
        rw [← hs1]
        exact ⟨[] ++ r2', updateAliasOne_compose hskip hfixt, hskip⟩
      · have hfstF : pyStartsWith f (toString opts.indexBaseId) = false := by
          cases hb : pyStartsWith f (toString opts.indexBaseId) with
          | false => rfl
          | true => exact absurd hb hfst
        by_cases hwipe : opts.wipeOldIndexes = true
        · have h12 := hw.symm.trans (updateWildcard_swap_wipe hread hfstF hwipe)
          simp only [Except.ok.injEq, Prod.mk.injEq] at h12
          obtain ⟨hsW, hrW⟩ := h12
          apply secondRunFromPost opts indexName s sW s1 rF hfix _ hf
          intro i hi
          rw [hsW] at hi
          simp only [applyReq, overwriteAlias, if_pos rfl, List.mem_filter,
            decide_eq_true_eq] at hi
          exact hi.1
        · have hwipeF : opts.wipeOldIndexes = false := by
            cases hb : opts.wipeOldIndexes with
            | false => rfl
            | true => exact absurd hb hwipe
          have h12 := hw.symm.trans (updateWildcard_swap_keep hread hfstF hwipeF)
          simp only [Except.ok.injEq, Prod.mk.injEq] at h12
          obtain ⟨hsW, hrW⟩ := h12
          apply secondRunFromPost opts indexName s sW s1 rF hfix _ hf
          intro i hi
          rw [hsW] at hi
          simp only [overwriteAlias, if_pos rfl] at hi
          exact hi

/-- Claim C4: end-to-end swap scenario for family `book` with run id 1000.
From an existing wildcard alias `book_r_wildcard` resolving to
`999-book-novel`, the alias stage makes the wildcard alias resolve to
exactly the indexes matching `1000-book-*` (namely `1000-book-novel`),
makes the fixed alias `book_r-novel` resolve to exactly `1000-book-novel`,
deletes `999-book-novel` when garbage collection is enabled, and retains
it when disabled. -/
theorem bookSwapScenario :
    (∃ sT rT, updateAliasOne optsWipe "book" sBook = Except.ok (sT, rT) ∧
      getAlias sT (wAliasName optsWipe "book") = some ["1000-book-novel"] ∧
      sT.indexes.filter
        (fun i => globMatch (wPatternOf optsWipe "book").data i.data) =
        ["1000-book-novel"] ∧
      getAlias sT "book_r-novel" = some ["1000-book-novel"] ∧
      "999-book-novel" ∉ sT.indexes) ∧
    (∃ sK rK, updateAliasOne optsKeep "book" sBook = Except.ok (sK, rK) ∧
      getAlias sK (wAliasName optsKeep "book") = some ["1000-book-novel"] ∧
      getAlias sK "book_r-novel" = some ["1000-book-novel"] ∧
      "999-book-novel" ∈ sK.indexes) :=
  ⟨⟨_, _, rfl, by decide, by decide, by decide, by decide⟩,
   ⟨_, _, rfl, by decide, by decide, by decide⟩⟩

/-- Witness for the idempotence theorem at the book scenario. -/
theorem aliasStageIdempotentWitness :
    ∃ s1 r1, updateAliasOne optsWipe "book" sBook = Except.ok (s1, r1) ∧
      ∃ r2, updateAliasOne optsWipe "book" s1 = Except.ok (s1, r2) ∧
        updateWildcardIndexes optsWipe "book" s1 = Except.ok (s1, []) :=
  ⟨_, _, rfl,
   aliasStageIdempotent optsWipe "book" sBook _ _ (by decide) (by decide) rfl⟩

/-- Claim C2 counterexample: when the pre-swap resolution mixes an
old-generation index with a current-run index (one whose name starts with
the decimal run identifier), garbage collection deletes the current-run
index `1000-book-b` as well, contradicting "never deletes an index whose
name starts with the current run identifier". -/
theorem gcCurrentRunCounterexample :
    pyStartsWith "1000-book-b" (toString optsWipe.indexBaseId) = true ∧
    ∃ s' reqs, updateWildcardIndexes optsWipe "book" sMixed = Except.ok (s', reqs) ∧
      Req.deleteIndexes ["999-book-a", "1000-book-b"] ∈ reqs ∧
      "1000-book-b" ∉ s'.indexes :=
  ⟨by decide, _, _, rfl, by decide, by decide⟩

/-- Claim C2 (amended): when no pre-swap resolved index name starts with
the current run identifier, garbage collection issues exactly one delete
request carrying exactly the pre-swap resolved set, placed after the
single combined remove-and-add request, and no deleted index name starts
with the current run identifier. -/
theorem gcDeletesExactlyOld (opts : Options) (indexName : String) (s : Cluster)
    (first : String) (rest : List String)
    (hread : getAlias s (wAliasName opts indexName) = some (first :: rest))
    (hold : ∀ i ∈ first :: rest, pyStartsWith i (toString opts.indexBaseId) = false)
    (hwipe : opts.wipeOldIndexes = true) :
    ∃ s', updateWildcardIndexes opts indexName s = Except.ok
      (s', [Req.updateAliases
              [AliasAction.remove (wAliasName opts indexName) (first :: rest),
               AliasAction.add (wAliasName opts indexName) (wPatternOf opts indexName)],
            Req.deleteIndexes (first :: rest)]) ∧
      (∀ i ∈ first :: rest, pyStartsWith i (toString opts.indexBaseId) = false) :=
  ⟨_, updateWildcard_swap_wipe hread (hold first (List.mem_cons_self _ _)) hwipe, hold⟩

/-- Witness for the amended garbage-collection theorem. -/
theorem gcDeletesExactlyOldWitness :
    ∃ s', updateWildcardIndexes optsWipe "book" sBook = Except.ok
      (s', [Req.updateAliases
              [AliasAction.remove (wAliasName optsWipe "book") ["999-book-novel"],
               AliasAction.add (wAliasName optsWipe "book") (wPatternOf optsWipe "book")],
            Req.deleteIndexes ["999-book-novel"]]) ∧
      (∀ i ∈ ["999-book-novel"],
        pyStartsWith i (toString optsWipe.indexBaseId) = false) :=
  gcDeletesExactlyOld optsWipe "book" sBook "999-book-novel" []
    (by decide) (by decide) rfl

/-- Claim C3 (code bug): with the wildcard alias missing, the fixed-alias
update does not log and return normally — its log format call raises,
because the template of `fixedMissingMsg` subscripts position 1 of a
one-element argument tuple. -/
theorem fixedMissingAliasCrash :
    getAlias emptyCluster (wAliasName optsWipe "book") = none ∧
    updateFixedIndexes optsWipe "book" emptyCluster =
      Except.error Err.formatIndexOutOfRange :=
  ⟨rfl, rfl⟩

/-- Claim C9: an alias read that succeeds with an empty index list makes
both the wildcard update and the fixed update fail with the out-of-range
list access of the unconditional `[0]` subscript — neither treats the
empty resolution as a skip or create case. -/
theorem emptyAliasResolutionCrashes (opts : Options) (indexName : String)
    (s : Cluster) :
    wildcardStep opts indexName (some []) = Except.error Err.listIndexOutOfRange ∧
    fixedStep opts indexName (some []) s = Except.error Err.listIndexOutOfRange :=
  ⟨rfl, rfl⟩

/-- Claim C5: every wildcard-alias transition is a single alias-mutation
request.  When the alias is absent the trace is exactly one request with
one add action (no remove, no delete); when the alias points at an older
run, the removal from all old indexes and the addition of the new pattern
form one combined request — followed only by the optional delete, never by
a second alias-mutation request. -/
theorem wildcardSingleRequest (opts : Options) (indexName : String) (s : Cluster) :
    (getAlias s (wAliasName opts indexName) = none →
      updateWildcardIndexes opts indexName s = Except.ok
        (overwriteAlias s (wAliasName opts indexName) (wMatching opts indexName s),
         [Req.updateAliases
           [AliasAction.add (wAliasName opts indexName) (wPatternOf opts indexName)]]) ∧
      mutationCount
        [Req.updateAliases
          [AliasAction.add (wAliasName opts indexName) (wPatternOf opts indexName)]] = 1) ∧
    (∀ first rest, getAlias s (wAliasName opts indexName) = some (first :: rest) →
      pyStartsWith first (toString opts.indexBaseId) = false →
      ∃ s', updateWildcardIndexes opts indexName s = Except.ok (s',
        Req.updateAliases
          [AliasAction.remove (wAliasName opts indexName) (first :: rest),
           AliasAction.add (wAliasName opts indexName) (wPatternOf opts indexName)] ::
        (if opts.wipeOldIndexes then [Req.deleteIndexes (first :: rest)] else [])) ∧
      mutationCount
        (Req.updateAliases
          [AliasAction.remove (wAliasName opts indexName) (first :: rest),
           AliasAction.add (wAliasName opts indexName) (wPatternOf opts indexName)] ::
        (if opts.wipeOldIndexes then [Req.deleteIndexes (first :: rest)] else [])) = 1) := by
  constructor
  · intro h
    exact ⟨updateWildcard_create h, rfl⟩
  · intro first rest hread hfst
    by_cases hwipe : opts.wipeOldIndexes = true
    · simp only [hwipe, if_true]
      exact ⟨_, updateWildcard_swap_wipe hread hfst hwipe, rfl⟩
    · have hwipeF : opts.wipeOldIndexes = false := by
        cases hb : opts.wipeOldIndexes with
        | false => rfl
        | true => exact absurd hb hwipe
      simp only [hwipeF, Bool.false_eq_true, if_false]
      exact ⟨_, updateWildcard_swap_keep hread hfst hwipeF, rfl⟩

/-- Witness for the single-request theorem: the create path on an empty
cluster and the swap path on the book scenario. -/
theorem wildcardSingleRequestWitness :
    (updateWildcardIndexes optsWipe "book" emptyCluster = Except.ok
      (overwriteAlias emptyCluster (wAliasName optsWipe "book")
        (wMatching optsWipe "book" emptyCluster),
       [Req.updateAliases
         [AliasAction.add (wAliasName optsWipe "book") (wPatternOf optsWipe "book")]])) ∧
    ∃ s', updateWildcardIndexes optsWipe "book" sBook = Except.ok (s',
      Req.updateAliases
        [AliasAction.remove (wAliasName optsWipe "book") ["999-book-novel"],
         AliasAction.add (wAliasName optsWipe "book") (wPatternOf optsWipe "book")] ::
      (if optsWipe.wipeOldIndexes then [Req.deleteIndexes ["999-book-novel"]] else [])) := by
  obtain ⟨he1, _⟩ := (wildcardSingleRequest optsWipe "book" emptyCluster).1 (by decide)
  obtain ⟨s', he2, _⟩ :=
    (wildcardSingleRequest optsWipe "book" sBook).2 "999-book-novel" []
      (by decide) (by decide)
  exact ⟨he1, s', he2⟩

/-- Claim C6: in every successful per-family alias stage the wildcard
update completes first, the fixed update runs second on the state the
wildcard update produced, and — whenever the fixed update proceeds — the
indexes it aliases are exactly the wildcard alias's resolved index list
read from that state. -/
theorem wildcardBeforeFixed (opts : Options) (indexName : String)
    (s st : Cluster) (r : List Req)
    (h : updateAliasOne opts indexName s = Except.ok (st, r)) :
    ∃ s1 r1 r2, updateWildcardIndexes opts indexName s = Except.ok (s1, r1) ∧
      updateFixedIndexes opts indexName s1 = Except.ok (st, r2) ∧
      r = r1 ++ r2 ∧
      ∀ first rest, getAlias s1 (wAliasName opts indexName) = some (first :: rest) →
        pyStartsWith first (toString opts.indexBaseId) = true →
        addTargets r2 = first :: rest := by
  obtain ⟨s1, r1, r2, hw, hf, hr⟩ := updateAliasOne_decomp opts indexName s h
  refine ⟨s1, r1, r2, hw, hf, hr, ?_⟩
  intro first rest hread hfst
  have h2 := (updateFixed_proceed hread hfst).symm.trans hf
  simp only [Except.ok.injEq] at h2
  have hrw : r2 = (fixedLoop opts indexName (first :: rest) s1).2 := by rw [h2]
  rw [hrw, fixedLoop_addTargets]

/-- Witness for the ordering/discovery theorem at the book scenario. -/
theorem wildcardBeforeFixedWitness :
    ∃ st r, updateAliasOne optsWipe "book" sBook = Except.ok (st, r) ∧
      ∃ s1 r1 r2, updateWildcardIndexes optsWipe "book" sBook = Except.ok (s1, r1) ∧
        updateFixedIndexes optsWipe "book" s1 = Except.ok (st, r2) ∧
        r = r1 ++ r2 ∧
        ∀ first rest, getAlias s1 (wAliasName optsWipe "book") = some (first :: rest) →
          pyStartsWith first (toString optsWipe.indexBaseId) = true →
          addTargets r2 = first :: rest :=
  ⟨_, _, rfl, wildcardBeforeFixed optsWipe "book" sBook _ _ rfl⟩

/-- Claim C10 counterexample: with resolution
`["999-book-a", "10001-book-x"]` under run id 1000, the index
`10001-book-x` begins with the digits `1000`, yet the wildcard update does
not treat it as current-run: the swap proceeds and garbage collection
deletes it. -/
theorem sameRunCheckCounterexample :
    pyStartsWith "10001-book-x" (toString optsWipe.indexBaseId) = true ∧
    ∃ s' reqs, updateWildcardIndexes optsWipe "book" sTen = Except.ok (s', reqs) ∧
      reqs ≠ [] ∧
      Req.deleteIndexes ["999-book-a", "10001-book-x"] ∈ reqs :=
  ⟨by decide, _, _, rfl, by decide, by decide⟩

/-- Claim C10 (amended): the same-run-id checks compare only the first
resolved index name against the decimal run identifier with no trailing
separator.  Whenever the first resolved name merely begins with those
digits — e.g. `10001-book-x` under run id 1000 — the wildcard update skips
the swap and garbage collection, and the fixed update treats the
resolution as current-generation and runs its per-index loop. -/
theorem sameRunPrefixCheckOnFirst (opts : Options) (indexName : String)
    (s : Cluster) (first : String) (rest : List String)
    (hread : getAlias s (wAliasName opts indexName) = some (first :: rest))
    (hfst : pyStartsWith first (toString opts.indexBaseId) = true) :
    updateWildcardIndexes opts indexName s = Except.ok (s, []) ∧
    updateFixedIndexes opts indexName s =
      Except.ok (fixedLoop opts indexName (first :: rest) s) :=
  ⟨updateWildcard_skip hread hfst, updateFixed_proceed hread hfst⟩

/-- Witness for the amended same-run-check theorem: the claim's own
example index `10001-book-x` under run id 1000. -/
theorem sameRunPrefixCheckOnFirstWitness :
    pyStartsWith "10001-book-x" (toString optsWipe.indexBaseId) = true ∧
    updateWildcardIndexes optsWipe "book" sTenW = Except.ok (sTenW, []) ∧
    updateFixedIndexes optsWipe "book" sTenW =
      Except.ok (fixedLoop optsWipe "book" ["10001-book-x"] sTenW) :=
  ⟨by decide,
   sameRunPrefixCheckOnFirst optsWipe "book" sTenW "10001-book-x" []
     (by decide) (by decide)⟩

/-- When some selector matches nothing, the selector loop raises a
`CommandError` naming (the lowercased form of) the first such selector,
before resolving anything. -/
theorem resolveArgs_unknown (ms : List Model) (args : List String)
    (h : ∃ a ∈ args, ∀ m ∈ ms, matchesArg m (pyLower a) = false) :
    ∃ a ∈ args, (∀ m ∈ ms, matchesArg m (pyLower a) = false) ∧
      resolveArgs ms args =
        Except.error (Err.commandError ("No model or app named " ++ pyLower a)) := by
  induction args with
  | nil =>
    obtain ⟨a, ha, _⟩ := h
    exact absurd ha (List.not_mem_nil a)
  | cons arg rest ih =>
    by_cases hm : (ms.filter (fun m => matchesArg m (pyLower arg))).isEmpty = true
    · refine ⟨arg, List.mem_cons_self _ _, ?_, ?_⟩
      · intro m hmem
        have hnil : ms.filter (fun m => matchesArg m (pyLower arg)) = [] :=
          List.isEmpty_iff.mp hm
        cases hb : matchesArg m (pyLower arg) with
        | false => rfl
        | true =>
          have : m ∈ ms.filter (fun m => matchesArg m (pyLower arg)) :=
            List.mem_filter.mpr ⟨hmem, hb⟩
          rw [hnil] at this
          exact absurd this (List.not_mem_nil m)
      · unfold resolveArgs
        simp [hm]
    · have hrest : ∃ a ∈ rest, ∀ m ∈ ms, matchesArg m (pyLower a) = false := by
        obtain ⟨a, ha, hall⟩ := h
        cases List.mem_cons.mp ha with
        | inl heq =>
          exfalso
          apply hm
          rw [List.isEmpty_iff, List.filter_eq_nil_iff]
          intro m hmem
          rw [← heq]
          simp [hall m hmem]
        | inr hmem => exact ⟨a, hmem, hall⟩
      obtain ⟨a, ha, hall, heq⟩ := ih hrest
      refine ⟨a, List.mem_cons_of_mem _ ha, hall, ?_⟩
      unfold resolveArgs
      simp [hm, heq]

/-- Claim C7: if any selector matches no registered type — neither by app
label nor by exact `app.model` match — the whole run fails with a
configuration error naming that (lowercased) selector, and the request
trace is empty: no template publish, no indexing, no refresh, no alias
change, no delete. -/
theorem unknownSelectorAborts (reg : Registry) (opts : Options)
    (refreshNew doAlias : Bool) (args : List String) (s : Cluster)
    (h : ∃ a ∈ args, ∀ m ∈ reg.models, matchesArg m (pyLower a) = false) :
    ∃ a ∈ args, (∀ m ∈ reg.models, matchesArg m (pyLower a) = false) ∧
      handleT reg opts refreshNew doAlias args s =
        ([], Except.error (Err.commandError ("No model or app named " ++ pyLower a))) := by
  obtain ⟨a, ha, hall, heq⟩ := resolveArgs_unknown reg.models args h
  refine ⟨a, ha, hall, ?_⟩
  cases args with
  | nil => exact absurd ha (List.not_mem_nil a)
  | cons x xs =>
    have hg : getModels reg (x :: xs) =
        Except.error (Err.commandError ("No model or app named " ++ pyLower a)) := heq
    unfold handleT
    rw [hg]

/-- Witness: a selector matching nothing aborts with an empty trace. -/
theorem unknownSelectorAbortsWitness :
    ∃ a ∈ ["nosuchapp"], (∀ m ∈ regDemo.models, matchesArg m (pyLower a) = false) ∧
      handleT regDemo optsWipe true true ["nosuchapp"] emptyCluster =
        ([], Except.error (Err.commandError ("No model or app named " ++ pyLower a))) :=
  unknownSelectorAborts regDemo optsWipe true true ["nosuchapp"] emptyCluster
    ⟨"nosuchapp", by decide, by decide⟩

/-- Claim C8 counterexample: the selector `auth` equals the app label
`Auth` up to letter case, yet resolution does not return that type — it
fails with a `CommandError`, because the loop lowercases the selector but
compares it against the raw app label. -/
theorem selectorCaseCounterexample :
    pyLower "auth" = pyLower "Auth" ∧
    getModels regUpper ["auth"] =
      Except.error (Err.commandError "No model or app named auth") :=
  ⟨by decide, rfl⟩

/-- Claim C8 (amended): a selector resolves to a registered type when its
lowercased form equals the type's app label verbatim, or equals the
lowercased `app.model` string.  (Case-insensitivity thus holds for
`app.model` selectors in general, and for app-label selectors exactly when
the stored app label is lowercase.) -/
theorem selectorMatchingAmended (reg : Registry) (m : Model) (sel : String)
    (hm : m ∈ reg.models)
    (hsel : pyLower sel = m.appLabel ∨
      pyLower sel = pyLower m.appLabel ++ "." ++ pyLower m.modelName) :
    ∃ l, getModels reg [sel] = Except.ok l ∧ m ∈ l := by
  have hmatch : matchesArg m (pyLower sel) = true := by
    unfold matchesArg
    cases hsel with
    | inl h => simp [h]
    | inr h => simp [h]
  have hmem : m ∈ reg.models.filter (fun x => matchesArg x (pyLower sel)) :=
    List.mem_filter.mpr ⟨hm, hmatch⟩
  have hne : (reg.models.filter (fun x => matchesArg x (pyLower sel))).isEmpty = false := by
    cases hl : reg.models.filter (fun x => matchesArg x (pyLower sel)) with
    | nil =>
      rw [hl] at hmem
      exact absurd hmem (List.not_mem_nil m)
    | cons y ys => rfl
  refine ⟨reg.models.filter (fun x => matchesArg x (pyLower sel)) ++ [], ?_, ?_⟩
  · show resolveArgs reg.models [sel] = _
    unfold resolveArgs
    simp only [hne, Bool.false_eq_true, if_false]
    rfl
  · exact List.mem_append.mpr (Or.inl hmem)

/-- Witness: an upper-cased selector resolves against a lowercase app
label. -/
theorem selectorMatchingAmendedWitness :
    ∃ l, getModels regDemo ["AUTH"] = Except.ok l ∧
      (⟨"auth", "user"⟩ : Model) ∈ l :=
  selectorMatchingAmended regDemo ⟨"auth", "user"⟩ "AUTH" (by decide)
    (Or.inl (by decide))
